/-
  Verification of the `lod-imputation-geochem` repository against its
  natural-language specification.

  The development shallowly embeds the algorithmic core of the repository:

  * `reader.py`      : LOD detection (`detectar_lod`) and coordinate
                       extraction (`extraer_coordenadas`);
  * `imputation.py`  : the simple truncated-normal substitution engine,
                       the beta-substitution engine, the spatial IDW engine
                       and the dispatcher `aplicar_reemplazo_lod`;
  * `lrem.py`        : the log-ratio EM engine (`reemplazar_lod_lrem`).

  Modelling conventions:
  * pandas cells are modelled by `Cell` (a string or the NaN marker) for the
    detector, and by `Option ℝ` (with `none` = NaN) for the numeric engines;
  * a data frame is a list of named columns, row-aligned by position;
  * IEEE floats are modelled by real numbers.  numpy's NaN-propagating
    arithmetic is modelled by `Option ℝ` with `none`-propagating operations;
    infinities produced by float overflow or division by zero do not arise on
    any path analysed here (real division by zero is the Lean default `0`);
  * randomness (`np.random.normal`, `np.random.uniform`) is modelled by
    explicit draw functions passed as parameters;
  * the standard-normal cdf/pdf/ppf of `scipy.stats.norm` and the
    pseudo-inverse `np.linalg.pinv` are passed as function parameters, since
    the claims under study never depend on their actual values;
  * Python exceptions are modelled by `Except PyErr`.
-/
import Mathlib

set_option maxHeartbeats 1000000

/-! ## Errors raised by the Python code -/

/-- Kinds of Python exceptions that the modelled code can raise. -/
inductive PyErr where
  | valueError
  | typeError
  | linAlgError
  | importError
  | nameError
  deriving DecidableEq, Repr

/-! ## LOD detector (`reader.detectar_lod`)

A raw cell is either the missing marker NaN or a string (any cell is turned
into its textual form by `.astype(str)` before matching; NaN prints as
`"nan"`, which never matches the pattern). -/

/-- A raw table cell as seen by the detector: NaN or its textual form. -/
inductive Cell where
  | na
  | txt (s : String)
  deriving DecidableEq, Repr

/-- Textual form of a cell, as produced by `.astype(str)` (NaN prints as
`"nan"`). -/
def cellStr : Cell → String
  | Cell.na => "nan"
  | Cell.txt s => s

/-- Whitespace characters matched by the regex class `\s`. -/
def isWS (c : Char) : Bool :=
  c = ' ' || c = '\t' || c = '\n' || c = '\r' || c = '\x0b' || c = '\x0c'

/-- Does a character list match `\d+(\.\d+)?` exactly (regex anchored by
`$`)? -/
def matchesNum (cs : List Char) : Bool :=
  let ds := cs.takeWhile Char.isDigit
  let rest := cs.drop ds.length
  !ds.isEmpty &&
    (match rest with
     | [] => true
     | '.' :: fs => !fs.isEmpty && fs.all Char.isDigit
     | _ => false)

/-- Does a string match the detector pattern `^<\s*\d+(\.\d+)?$` of
`detectar_lod`? -/
def matchesLOD (s : String) : Bool :=
  match s.toList with
  | '<' :: rest => matchesNum (rest.dropWhile isWS)
  | _ => false

/-- Numeric value of a digit list (base 10). -/
def digitsVal (cs : List Char) : ℕ :=
  cs.foldl (fun n c => 10 * n + (c.toNat - 48)) 0

/-- Value of a decimal literal `\d+(\.\d+)?`, as parsed by Python `float`. -/
def parseDecimal (cs : List Char) : ℚ :=
  let ds := cs.takeWhile Char.isDigit
  let rest := cs.drop ds.length
  match rest with
  | '.' :: fs => (digitsVal ds : ℚ) + (digitsVal fs : ℚ) / (10 : ℚ) ^ fs.length
  | _ => (digitsVal ds : ℚ)

/-- Value of `float(s.replace("<", ""))` for a matching cell: every `<` is
removed and `float` ignores the leading whitespace. -/
def parseLOD (s : String) : ℚ :=
  parseDecimal ((s.toList.filter (fun c => c ≠ '<')).dropWhile isWS)

/-- Does a cell's textual form match the below-LOD pattern? -/
def cellMatches (c : Cell) : Bool := matchesLOD (cellStr c)

/-- Parsed numeric suffixes of all matching cells of a column (the series
`df.loc[mask, col].str.replace("<","").astype(float)`). -/
def matchedVals (col : List Cell) : List ℚ :=
  (col.filter cellMatches).map (fun c => parseLOD (cellStr c))

/-- Maximum of a rational list (`Series.max`), `none` on the empty list. -/
def listMaxQ : List ℚ → Option ℚ
  | [] => none
  | x :: xs => some ((listMaxQ xs).elim x (max x))

/-- One column of `detectar_lod`: if any cell matches the below-LOD pattern,
all matching cells become NaN and the column's limit is the maximum parsed
suffix; otherwise the column is untouched and no limit is recorded.
(`pd.to_numeric(..., errors="ignore")` only re-types cells without changing
the value they denote, so it is not reflected in this model.) -/
def detectar_lod_col (col : List Cell) : List Cell × Option ℚ :=
  if col.any cellMatches then
    (col.map (fun c => if cellMatches c then Cell.na else c),
     some ((listMaxQ (matchedVals col)).getD 0))
  else
    (col, none)

/-- Whole-table `detectar_lod`: each column is processed independently and the
limit mapping collects, in column order, the limits of the columns that have
matching cells. -/
def detectar_lod (df : List (String × List Cell)) :
    List (String × List Cell) × List (String × ℚ) :=
  (df.map (fun p => (p.1, (detectar_lod_col p.2).1)),
   df.filterMap (fun p => ((detectar_lod_col p.2).2).map (fun q => (p.1, q))))

/-! ## Numeric tables

After detection, engines work on numeric columns whose cells are either a
real value or NaN; `none` models NaN. -/

/-- A numeric cell: `none` is NaN (a censored/missing value). -/
abbrev CellR := Option ℝ

/-- A numeric data frame: named columns, row-aligned by position. -/
abbrev Table := List (String × List CellR)

/-- pandas `DataFrame.empty`: true iff the frame has no columns or no rows. -/
def tableEmpty (t : Table) : Bool :=
  t.isEmpty || t.all (fun c => c.2.isEmpty)

/-- Column lookup (`df[col]`), `none` when the column is absent. -/
def tableGetCol (t : Table) (name : String) : Option (List CellR) :=
  (t.find? (fun p => p.1 = name)).map (fun p => p.2)

/-- Replace the contents of one column, leaving the others untouched. -/
def tableSetCol (t : Table) (name : String) (col : List CellR) : Table :=
  t.map (fun p => if p.1 = name then (p.1, col) else p)

/-- Cell access by column name and row position (`none` if out of range). -/
def cellAt (t : Table) (name : String) (i : ℕ) : CellR :=
  (((tableGetCol t name).getD []).get? i).getD none

/-! ## Coordinate extractor (`reader.extraer_coordenadas`) -/

/-- The fixed, case-insensitive coordinate keyword set. -/
def utmNames : List String := ["UTM_E", "UTM_N", "EASTING", "NORTHING"]

/-- Python `str.upper()` (character-wise uppercase). -/
def pyUpper (s : String) : String := String.mk (s.data.map Char.toUpper)

/-- Is a column name a coordinate column (`c.upper()` in the keyword set)? -/
def isUtmCol (name : String) : Bool := utmNames.contains (pyUpper name)

/-- `extraer_coordenadas`: partition the columns by name.  Matching columns
(in original order) form the coordinate table; if no column matches, the
coordinate table is the empty frame `pd.DataFrame()`.  All other columns form
the measurement table. -/
def extraer_coordenadas (df : Table) : Table × Table :=
  let utm := df.filter (fun p => isUtmCol p.1)
  let geo := df.filter (fun p => !isUtmCol p.1)
  (geo, if utm.isEmpty then [] else utm)

/-! ## Shared numeric helpers -/

/-- `np.clip(x, lo, hi) = min(hi, max(x, lo))` (the order matters when
`lo > hi`). -/
noncomputable def npClip (x lo hi : ℝ) : ℝ := min hi (max x lo)

/-- Python `max(lo, min(x, hi))`, used by the IDW engine. -/
noncomputable def pyClamp (x lo hi : ℝ) : ℝ := max lo (min x hi)

/-- Arithmetic mean of a list of reals (`np.mean`). -/
noncomputable def meanR (l : List ℝ) : ℝ := l.sum / l.length

/-- Maximum of a real list with pandas `.max` semantics on nonempty input. -/
noncomputable def listMaxR : List ℝ → ℝ
  | [] => 0
  | x :: xs => xs.foldl max x

/-- Minimum of a real list with pandas `.min` semantics on nonempty input. -/
noncomputable def listMinR : List ℝ → ℝ
  | [] => 0
  | x :: xs => xs.foldl min x

/-- Fill the NaN cells of a column, in row order, with the given values
(`df.loc[mask_nan, col] = valores`). -/
def fillNones : List CellR → List ℝ → List CellR
  | [], _ => []
  | none :: cs, v :: vs => some v :: fillNones cs vs
  | none :: cs, [] => none :: fillNones cs []
  | some w :: cs, vs => some w :: fillNones cs vs

/-- Row positions of the NaN cells of a column (`np.where(mask_nan)[0]`). -/
def indicesNone (col : List CellR) : List ℕ :=
  (List.range col.length).filter (fun i => ((col.get? i).getD (some 0)).isNone)

/-- Row positions of the non-NaN cells of a column
(`np.where(~isna)[0]`). -/
def indicesSome (col : List CellR) : List ℕ :=
  (List.range col.length).filter (fun i => ((col.get? i).getD none).isSome)

/-- Value of a (known observed) cell, defaulting NaN to `0`. -/
noncomputable def colVal (col : List CellR) (i : ℕ) : ℝ :=
  (((col.get? i).getD none).getD 0)

/-! ## Simple substitution engine (`imputation.reemplazar_lod_simple`) -/

/-- The selectable center variant (`metodo` of the simple engine,
`metodo_c` of the IDW engine). -/
inductive CenterMethod where
  | sqrt2
  | div2
  deriving DecidableEq, Repr

/-- Center value: `L/√2` for `"sqrt2"`, `L/2` for `"div2"`. -/
noncomputable def centerC : CenterMethod → ℝ → ℝ
  | CenterMethod.sqrt2, L => L / Real.sqrt 2
  | CenterMethod.div2, L => L / 2

/-- The mean-correction rescale of the simple engine: multiply every draw by
`target / mean` (`valores * (valor_central / media_actual)`). -/
noncomputable def rescale (l : List ℝ) (target : ℝ) : List ℝ :=
  l.map (fun x => x * (target / meanR l))

/-- The values the simple engine writes for one column, given the `n` raw
normal draws `draw 0, …, draw (n-1)` (modelling
`np.random.normal(C, 0.15*C, n)`): clip to `[0.001, 0.99*L]`, rescale so the
mean is the center, and re-clip. -/
noncomputable def simpleColValues (metodo : CenterMethod) (L : ℝ)
    (draw : ℕ → ℝ) (n : ℕ) : List ℝ :=
  let C := centerC metodo L
  let v0 := (List.range n).map draw
  let v1 := v0.map (fun x => npClip x (1/1000) (99/100 * L))
  let v2 := rescale v1 C
  v2.map (fun x => npClip x (1/1000) (99/100 * L))

/-- One column of `reemplazar_lod_simple`: if the column has NaN cells they
are filled, in row order, with `simpleColValues`. -/
noncomputable def reemplazar_lod_simple_col (metodo : CenterMethod) (L : ℝ)
    (draw : ℕ → ℝ) (col : List CellR) : List CellR :=
  let n := col.countP (fun c => c.isNone)
  if n = 0 then col
  else fillNones col (simpleColValues metodo L draw n)

/-- Whole-table simple engine: the columns of the limit mapping are processed
in mapping order (columns absent from the frame are skipped); `drawFor`
models the per-column stream of normal draws. -/
noncomputable def reemplazar_lod_simple (df : Table)
    (lodInfo : List (String × ℝ)) (metodo : CenterMethod)
    (drawFor : String → ℕ → ℝ) : Table :=
  lodInfo.foldl
    (fun acc p =>
      match tableGetCol acc p.1 with
      | none => acc
      | some col =>
          tableSetCol acc p.1
            (reemplazar_lod_simple_col metodo p.2 (drawFor p.1) col))
    df

/-! ## Beta-substitution engine (`imputation.reemplazar_lod_beta_substitution`)

The standard-normal cdf `Phi`, pdf `phi` and quantile function `ppf` of
`scipy.stats.norm` are passed as parameters.  `np.isfinite` checks of the
source cannot fail in the real-number model; the float non-finiteness they
guard against arises exactly from `log LOD = ±inf/nan` when `LOD ≤ 0`, which
the theorems exclude through the hypothesis `0 < L`. -/

/-- Observed (non-NaN) values of a column, in row order (`detectados`). -/
def betaDetect (col : List CellR) : List ℝ := col.filterMap id

/-- Number of censored cells of a column (`k`). -/
def betaK (col : List CellR) : ℕ := col.countP (fun c => c.isNone)

/-- Mean of the logs of the observed values (`y_bar`). -/
noncomputable def beta_y_bar (col : List CellR) : ℝ :=
  meanR ((betaDetect col).map Real.log)

/-- `z = stats.norm.ppf(k / n)`. -/
noncomputable def beta_z (ppf : ℝ → ℝ) (col : List CellR) : ℝ :=
  ppf ((betaK col : ℝ) / (col.length : ℝ))

/-- `f_z = pdf(z) / (1 - cdf(z))`. -/
noncomputable def beta_f_z (Phi phi ppf : ℝ → ℝ) (col : List CellR) : ℝ :=
  phi (beta_z ppf col) / (1 - Phi (beta_z ppf col))

/-- `s_y_hat = (y_bar - log LOD) / (f_z - z)`. -/
noncomputable def beta_s_y_hat (Phi phi ppf : ℝ → ℝ) (L : ℝ)
    (col : List CellR) : ℝ :=
  (beta_y_bar col - Real.log L) / (beta_f_z Phi phi ppf col - beta_z ppf col)

/-- `f_s_y_z = (1 - cdf(z - s/n)) / (1 - cdf(z))`. -/
noncomputable def beta_f_s_y_z (Phi phi ppf : ℝ → ℝ) (L : ℝ)
    (col : List CellR) : ℝ :=
  (1 - Phi (beta_z ppf col - beta_s_y_hat Phi phi ppf L col / (col.length : ℝ)))
    / (1 - Phi (beta_z ppf col))

/-- `beta_MEAN = (n/k) * cdf(z - s) * exp(-s*z + s^2/2)`. -/
noncomputable def beta_MEAN (Phi phi ppf : ℝ → ℝ) (L : ℝ)
    (col : List CellR) : ℝ :=
  let s := beta_s_y_hat Phi phi ppf L col
  let z := beta_z ppf col
  ((col.length : ℝ) / (betaK col : ℝ)) * Phi (z - s) *
    Real.exp (-(s * z) + s ^ 2 / 2)

/-- `beta_GM = exp(-(n-k)*n/k * log f_s_y_z - s*z - (n-k)/(2*k*n) * s^2)`. -/
noncomputable def beta_GM (Phi phi ppf : ℝ → ℝ) (L : ℝ)
    (col : List CellR) : ℝ :=
  let s := beta_s_y_hat Phi phi ppf L col
  let z := beta_z ppf col
  let n : ℝ := (col.length : ℝ)
  let k : ℝ := (betaK col : ℝ)
  Real.exp (-((n - k) * n / k) * Real.log (beta_f_s_y_z Phi phi ppf L col)
    - s * z - (n - k) / (2 * k * n) * s ^ 2)

/-- Fill every NaN cell of a column with a constant
(`df.loc[~mask_detectados, col] = v`). -/
def fillConst (v : ℝ) (col : List CellR) : List CellR :=
  col.map (fun c => some (c.getD v))

/-- One column of `reemplazar_lod_beta_substitution`, following the source
branch for branch: skip columns with fewer than 2 observed values or no
censored cell; fall back to `LOD/√2` when `s_y_hat ≤ 0` or either beta lies
outside `(0,1)`; otherwise fill all censored cells with `beta_MEAN * LOD`. -/
noncomputable def reemplazar_lod_beta_col (Phi phi ppf : ℝ → ℝ) (L : ℝ)
    (col : List CellR) : List CellR :=
  if (betaDetect col).length < 2 ∨ betaK col = 0 then col
  else if beta_s_y_hat Phi phi ppf L col ≤ 0 then
    fillConst (L / Real.sqrt 2) col
  else if ¬ (0 < beta_MEAN Phi phi ppf L col ∧ beta_MEAN Phi phi ppf L col < 1) then
    fillConst (L / Real.sqrt 2) col
  else if ¬ (0 < beta_GM Phi phi ppf L col ∧ beta_GM Phi phi ppf L col < 1) then
    fillConst (L / Real.sqrt 2) col
  else
    fillConst (beta_MEAN Phi phi ppf L col * L) col

/-- Whole-table beta-substitution engine. -/
noncomputable def reemplazar_lod_beta_substitution (df : Table)
    (lodInfo : List (String × ℝ)) (Phi phi ppf : ℝ → ℝ) : Table :=
  lodInfo.foldl
    (fun acc p =>
      match tableGetCol acc p.1 with
      | none => acc
      | some col =>
          tableSetCol acc p.1 (reemplazar_lod_beta_col Phi phi ppf p.2 col))
    df

/-! ## Spatial IDW engine (`imputation.reemplazar_lod_idw`) -/

/-- Euclidean distance matrix of the coordinate table
(`cdist(coords, coords)`), as a function of row positions. -/
noncomputable def distOfCoords (coords : List (ℝ × ℝ)) (i j : ℕ) : ℝ :=
  let p := (coords.get? i).getD (0, 0)
  let q := (coords.get? j).getD (0, 0)
  Real.sqrt ((p.1 - q.1) ^ 2 + (p.2 - q.2) ^ 2)

/-- The interpolated-and-reshaped value the IDW engine writes from a set of
neighbor positions: floor distances at `1e-10`, weight by `1/d^power`,
normalize, interpolate, normalize into `w ∈ [0,1]`, apply the quadratic
`V = A*w² + B*w` and clamp with `max(0.001, min(V, 0.99*L))`. -/
noncomputable def idwInterpVal (dist : ℕ → ℕ → ℝ) (power : ℝ)
    (A B minObs rango L : ℝ) (col : List CellR) (idx : ℕ)
    (nbrs : List ℕ) : ℝ :=
  let ds := nbrs.map (fun j =>
    let d := dist idx j
    if d < 1 / 10 ^ 10 then 1 / 10 ^ 10 else d)
  let ws := ds.map (fun d => 1 / d ^ power)
  let wn := ws.map (fun w => w / ws.sum)
  let interp := (List.zipWith (fun w j => w * colVal col j) wn nbrs).sum
  let w := min 1 (max ((interp - minObs) / rango) 0)
  let V := A * w ^ 2 + B * w
  pyClamp V (1/1000) (99/100 * L)

/-- The value the IDW engine writes into NaN cell `idx`, given the current
state `col` of the column: the center `C` when fewer than `min_neighbors`
observed cells exist (or remain after the optional `max_distance` filter),
the clamped quadratic interpolation otherwise. -/
noncomputable def idwWrittenVal (dist : ℕ → ℕ → ℝ) (power : ℝ)
    (maxDistance : Option ℝ) (minNeighbors : ℕ)
    (C A B minObs rango L : ℝ) (col : List CellR) (idx : ℕ) : ℝ :=
  let validos := indicesSome col
  if validos.length < minNeighbors then C
  else
    match maxDistance with
    | some md =>
        let kept := validos.filter (fun j => dist idx j ≤ md)
        if kept.length < minNeighbors then C
        else idwInterpVal dist power A B minObs rango L col idx kept
    | none => idwInterpVal dist power A B minObs rango L col idx validos

/-- One sequential IDW fill step: write the value for cell `idx` into the
column (later steps see this fill as an observed neighbor). -/
noncomputable def idwStep (dist : ℕ → ℕ → ℝ) (power : ℝ)
    (maxDistance : Option ℝ) (minNeighbors : ℕ)
    (C A B minObs rango L : ℝ) (col : List CellR) (idx : ℕ) : List CellR :=
  col.set idx (some (idwWrittenVal dist power maxDistance minNeighbors
    C A B minObs rango L col idx))

/-- One column of `reemplazar_lod_idw`: columns with no observed value are
skipped; otherwise the observed range, the center `C` and the quadratic
coefficients `A = 2L - 4C`, `B = 4C - L` are computed once, and the NaN
cells are filled sequentially in row order. -/
noncomputable def reemplazar_lod_idw_col (dist : ℕ → ℕ → ℝ) (power : ℝ)
    (maxDistance : Option ℝ) (minNeighbors : ℕ) (metodoC : CenterMethod)
    (L : ℝ) (col : List CellR) : List CellR :=
  let observados := betaDetect col
  if observados.length = 0 then col
  else
    let maxObs := listMaxR observados
    let minObs := listMinR observados
    let rango0 := maxObs - minObs
    let rango := if rango0 = 0 then (if 0 < maxObs then maxObs else 1) else rango0
    let C := centerC metodoC L
    let A := 2 * L - 4 * C
    let B := 4 * C - L
    (indicesNone col).foldl
      (idwStep dist power maxDistance minNeighbors C A B minObs rango L) col

/-- Whole-table IDW engine: validates the coordinate table
(`ValueError` when it is empty or has fewer than 2 columns), then processes
each limit-mapping column in order. -/
noncomputable def reemplazar_lod_idw (df : Table) (dfCoords : Table)
    (lodInfo : List (String × ℝ)) (power : ℝ) (maxDistance : Option ℝ)
    (minNeighbors : ℕ) (metodoC : CenterMethod) :
    Except PyErr Table :=
  if tableEmpty dfCoords ∨ dfCoords.length < 2 then
    Except.error PyErr.valueError
  else
    let cx := ((dfCoords.get? 0).map Prod.snd).getD []
    let cy := ((dfCoords.get? 1).map Prod.snd).getD []
    let coords := List.zipWith (fun a b => ((a : CellR).getD 0, (b : CellR).getD 0)) cx cy
    let dist := distOfCoords coords
    Except.ok (lodInfo.foldl
      (fun acc p =>
        match tableGetCol acc p.1 with
        | none => acc
        | some col =>
            tableSetCol acc p.1
              (reemplazar_lod_idw_col dist power maxDistance minNeighbors
                metodoC p.2 col))
      df)

/-! ## Log-ratio EM engine (`lrem.reemplazar_lod_lrem`)

The inner alr transform pair is first given in its pure form (acting on one
row of strictly positive floats, split as `xs ++ [xD]` to mirror the numpy
column split `[:, :-1]` / `[:, -1:]`). -/

/-- `alr_transform` on one row: clamp all components to `≥ 1e-10`, then take
the log of each leading component divided by the last component. -/
noncomputable def alr_transform (xs : List ℝ) (xD : ℝ) : List ℝ :=
  xs.map (fun a => Real.log (max a (1 / 10 ^ 10) / max xD (1 / 10 ^ 10)))

/-- `alr_inverse` on one row of alr coordinates, with `x_last` the reference
component: `Y_exp = exp Y`, `denominator = 1 + Σ Y_exp`, and the
reconstructed row is `Y_exp * x_last / denominator` extended with
`x_last / denominator`. -/
noncomputable def alr_inverse (ys : List ℝ) (xlast : ℝ) : List ℝ :=
  let yexp := ys.map Real.exp
  let denom := 1 + yexp.sum
  yexp.map (fun e => e * xlast / denom) ++ [xlast / denom]

/-! NaN-propagating arithmetic on `Option ℝ`, modelling numpy float
operations where `none` is NaN. -/

/-- Lift a binary real operation; NaN propagates. -/
def oMap2 (f : ℝ → ℝ → ℝ) : CellR → CellR → CellR
  | some a, some b => some (f a b)
  | _, _ => none

/-- Lift a unary real operation; NaN propagates. -/
def oFun (f : ℝ → ℝ) : CellR → CellR
  | some a => some (f a)
  | none => none

/-- NaN-propagating addition. -/
noncomputable def oAdd : CellR → CellR → CellR := oMap2 (· + ·)

/-- NaN-propagating subtraction. -/
noncomputable def oSub : CellR → CellR → CellR := oMap2 (· - ·)

/-- NaN-propagating multiplication. -/
noncomputable def oMul : CellR → CellR → CellR := oMap2 (· * ·)

/-- NaN-propagating division. -/
noncomputable def oDiv : CellR → CellR → CellR := oMap2 (· / ·)

/-- `np.sum`: NaN-propagating sum of a list. -/
noncomputable def oSum (l : List CellR) : CellR := l.foldl oAdd (some 0)

/-- `np.mean`: NaN-propagating mean of a list. -/
noncomputable def oMean (l : List CellR) : CellR :=
  oDiv (oSum l) (some (l.length : ℝ))

/-- `ndarray.max` on a nonempty list; NaN propagates. -/
noncomputable def oListMax : List CellR → CellR
  | [] => none
  | x :: xs => xs.foldl (oMap2 max) x

/-- A float comparison `x < c`: false when `x` is NaN. -/
noncomputable def oLtB (x : CellR) (c : ℝ) : Bool :=
  match x with
  | some a => decide (a < c)
  | none => false

/-- A matrix of floats (row-major), entries possibly NaN. -/
abbrev MatR := List (List CellR)

/-- `alr_transform` on one matrix row of `Option` floats. -/
noncomputable def alrRowM (row : List CellR) : List CellR :=
  let xp := row.map (fun c => oMap2 max c (some (1 / 10 ^ 10)))
  let xlast := (xp.getLast?).getD none
  xp.dropLast.map (fun x => oFun Real.log (oDiv x xlast))

/-- `alr_transform` on the whole matrix. -/
noncomputable def alrTransformM (X : MatR) : MatR := X.map alrRowM

/-- `alr_inverse` on one matrix row. -/
noncomputable def alrInvRowM (yrow : List CellR) (xlast : CellR) : List CellR :=
  let yexp := yrow.map (oFun Real.exp)
  let denom := oAdd (some 1) (oSum yexp)
  yexp.map (fun e => oDiv (oMul e xlast) denom) ++ [oDiv xlast denom]

/-- `alr_inverse` on the whole matrix, with `x_last` the last column of the
pre-iteration matrix. -/
noncomputable def alrInverseM (Y : MatR) (xl : List CellR) : MatR :=
  List.zipWith alrInvRowM Y xl

/-- Column `j` of a matrix. -/
def colOfM (M : MatR) (j : ℕ) : List CellR :=
  M.map (fun r => (r.get? j).getD none)

/-- Column means `mu = np.mean(Y, axis=0)` of the first `d` columns. -/
noncomputable def muOf (Y : MatR) (d : ℕ) : List CellR :=
  (List.range d).map (fun j => oMean (colOfM Y j))

/-- Sample covariance `np.cov(Y.T, bias=False)` of the first `d` columns
(denominator `n - 1`). -/
noncomputable def covOf (Y : MatR) (d : ℕ) : MatR :=
  let n := Y.length
  let mu := muOf Y d
  (List.range d).map (fun j =>
    (List.range d).map (fun k =>
      oDiv (oSum (Y.map (fun r =>
        oMul (oSub ((r.get? j).getD none) ((mu.get? j).getD none))
             (oSub ((r.get? k).getD none) ((mu.get? k).getD none)))))
        (some ((n : ℝ) - 1))))

/-- Scale every matrix entry by a real constant. -/
noncomputable def matScale (c : ℝ) (M : MatR) : MatR :=
  M.map (fun r => r.map (fun x => oMul (some c) x))

/-- Select the entries of a list at the `true` positions of a boolean mask
(numpy boolean indexing). -/
def selectByMask {α : Type} (mask : List Bool) (l : List α) : List α :=
  (List.zip mask l).filterMap (fun p => if p.1 then some p.2 else none)

/-- Submatrix `M[np.ix_(rmask, cmask)]`. -/
def subMat (rmask cmask : List Bool) (M : MatR) : MatR :=
  (selectByMask rmask M).map (selectByMask cmask)

/-- Does the matrix contain a NaN entry? -/
def matHasNone (M : MatR) : Bool :=
  M.any (fun r => r.any (fun c => c.isNone))

/-- Transpose (first `d` columns). -/
def transposeM (M : MatR) (d : ℕ) : MatR := (List.range d).map (colOfM M)

/-- Matrix product `A @ B`. -/
noncomputable def matMul (A B : MatR) : MatR :=
  let Bt := transposeM B ((B.head?.getD []).length)
  A.map (fun r => Bt.map (fun c => oSum (List.zipWith oMul r c)))

/-- Matrix-vector product `M @ v`. -/
noncomputable def mvMul (M : MatR) (v : List CellR) : List CellR :=
  M.map (fun r => oSum (List.zipWith oMul r v))

/-- Componentwise vector sum. -/
noncomputable def vAdd : List CellR → List CellR → List CellR :=
  List.zipWith oAdd

/-- Componentwise vector difference. -/
noncomputable def vSub : List CellR → List CellR → List CellR :=
  List.zipWith oSub

/-- Write `vals`, in order, into the `true` positions of a boolean mask
(`Y[i, cens_idx] = vals`). -/
def updateByMask : List Bool → List CellR → List CellR → List CellR
  | true :: ms, _ :: xs, v :: vs => v :: updateByMask ms xs vs
  | true :: ms, x :: xs, [] => x :: updateByMask ms xs []
  | false :: ms, x :: xs, vs => x :: updateByMask ms xs vs
  | _, xs, _ => xs

/-- `np.linalg.pinv`: the pseudo-inverse itself is an opaque parameter
`pinvF`; LAPACK's SVD raises `LinAlgError` when the input contains NaN,
which is the only failure mode modelled. -/
def pinvCall (pinvF : MatR → MatR) (M : MatR) : Except PyErr MatR :=
  if matHasNone M then Except.error PyErr.linAlgError else Except.ok (pinvF M)

/-- The Python expression `cols_lod[cens_idx][0]`, where `cols_lod` is a
plain Python list and `cens_idx` a boolean ndarray.  A boolean ndarray with
two or more elements cannot index a list, so Python raises `TypeError`
(`list indices must be integers`).  The single-element case (which the EM
engine can never reach, because its conditional branch requires a row with
both an observed and a censored alr coordinate, hence at least two of them)
is modelled by the historical scalar `__index__` conversion `int([b]) = b`. -/
def pyBoolIdxHead (l : List String) (mask : List Bool) : Except PyErr String :=
  if mask.length = 1 then
    match l.get? (if mask.head?.getD false then 1 else 0) with
    | some s => Except.ok s
    | none => Except.error PyErr.typeError
  else Except.error PyErr.typeError

/-- The M-step update of one sample row `i` of the alr matrix `Y`:
skip rows with no censored alr coordinate; impute with `mu` when every alr
coordinate is censored; otherwise run the conditional-expectation branch
(the `try` block of the source, whose `except` catches only
`np.linalg.LinAlgError`). -/
noncomputable def lremMStepRow (pinvF : MatR → MatR)
    (lodInfo : List (String × ℝ)) (colsLod : List String)
    (mu : List CellR) (Sg : MatR) (cmaskRow : List Bool)
    (yRow : List CellR) (xLastI : CellR) : Except PyErr (List CellR) :=
  let ci := cmaskRow.dropLast
  if ci.any (fun b => b) = false then Except.ok yRow
  else
    let obsIdx := ci.map (fun b => !b)
    if obsIdx.count true = 0 then
      Except.ok (updateByMask ci yRow (selectByMask ci mu))
    else
      let muObs := selectByMask obsIdx mu
      let muCens := selectByMask ci mu
      let Soo := subMat obsIdx obsIdx Sg
      let Sco := subMat ci obsIdx Sg
      let yObs := selectByMask obsIdx yRow
      match pinvCall pinvF Soo with
      | Except.error _ =>
          -- `except np.linalg.LinAlgError`: unconditional mean
          Except.ok (updateByMask ci yRow muCens)
      | Except.ok SooInv =>
          let condMean :=
            vAdd muCens (mvMul (matMul Sco SooInv) (vSub yObs muObs))
          match pyBoolIdxHead colsLod ci with
          | Except.error e => Except.error e   -- TypeError is not caught
          | Except.ok colName =>
              let lodAlr :=
                oFun Real.log
                  (oDiv (some ((lodInfo.lookup colName).getD 0)) xLastI)
              let condMean2 := condMean.map
                (fun c => oMap2 min c (oMul lodAlr (some (99 / 100))))
              Except.ok (updateByMask ci yRow condMean2)

/-- Sequential, fail-fast map (a Python `for` loop that can raise). -/
def exceptMapList {α β : Type} (f : α → Except PyErr β) :
    List α → Except PyErr (List β)
  | [] => Except.ok []
  | a :: as =>
    match f a with
    | Except.error e => Except.error e
    | Except.ok b =>
      match exceptMapList f as with
      | Except.error e => Except.error e
      | Except.ok bs => Except.ok (b :: bs)

/-- The mutable state of the EM `while` loop. -/
structure EmState where
  Xprev : MatR
  X : MatR
  converged : Bool
  iteration : ℕ
  relChange : CellR

/-- Proportion of censored cells, `censored_mask.mean()`. -/
noncomputable def propCensored (cmask : List (List Bool)) : ℝ :=
  ((cmask.map (fun r => r.count true)).sum : ℝ) /
    ((cmask.map List.length).sum : ℝ)

/-- One iteration of the EM loop: alr transform, E-step (mean and covariance,
with the censoring inflation factor from the second iteration on), M-step on
every row, inverse transform against the pre-iteration last column, and the
convergence test `|X_new - X_prev|.max / (|X_prev|.max + 1e-10) < tolerance`.
The state update mirrors the source order (`X_prev = X; X = X_new`). -/
noncomputable def lremBody (pinvF : MatR → MatR)
    (lodInfo : List (String × ℝ)) (colsLod : List String)
    (cmask : List (List Bool)) (tolerance : ℝ) (st : EmState) :
    Except PyErr EmState :=
  let it := st.iteration + 1
  let Y := alrTransformM st.X
  let d := colsLod.length - 1
  let mu := muOf Y d
  let Sg0 := covOf Y d
  let Sg := if it = 1 then Sg0
            else matScale (1 / (1 - 1 / 2 * propCensored cmask)) Sg0
  let xl := colOfM st.X (colsLod.length - 1)
  match exceptMapList
      (fun t : (List Bool × List CellR) × CellR =>
        lremMStepRow pinvF lodInfo colsLod mu Sg t.1.1 t.1.2 t.2)
      (List.zip (List.zip cmask Y) xl) with
  | Except.error e => Except.error e
  | Except.ok Y2 =>
      let Xnew := alrInverseM Y2 xl
      let num := oListMax
        (List.zipWith (fun a b => oFun (fun x => |x|) (oSub a b))
          Xnew.flatten st.Xprev.flatten)
      let den := oAdd (oListMax (st.Xprev.flatten.map (oFun (fun x => |x|))))
        (some (1 / 10 ^ 10))
      let relC := oDiv num den
      Except.ok ⟨st.X, Xnew, oLtB relC tolerance, it, relC⟩

/-- The EM `while not converged and iteration < max_iter` loop, with the
remaining iteration budget as fuel. -/
noncomputable def lremLoop (body : EmState → Except PyErr EmState) :
    ℕ → EmState → Except PyErr EmState
  | 0, st => Except.ok st
  | n + 1, st =>
    if st.converged then Except.ok st
    else
      match body st with
      | Except.error e => Except.error e
      | Except.ok st2 => lremLoop body n st2

/-- Number of rows of a frame, `len(df)`. -/
def nRows (df : Table) : ℕ := ((df.head?).map (fun p => p.2.length)).getD 0

/-- Number of rows with no NaN in any of the given columns. -/
def completeRows (df : Table) (cols : List String) : ℕ :=
  ((List.range (nRows df)).filter
    (fun i => cols.all (fun c => (cellAt df c i).isSome))).length

/-- The lrEM initialisation method (`ini_method`). -/
inductive IniMethod where
  | multRepl
  | completeObs
  deriving DecidableEq, Repr

/-- The `multRepl` initialisation: every censored cell of column `j` of the
limit mapping becomes `frac * LOD * rand j i`, `rand` modelling the uniform
jitter `np.random.uniform(0.95, 1.05)` draw stream. -/
noncomputable def lremInitFill (df : Table) (lodInfo : List (String × ℝ))
    (colsLod : List String) (frac : ℝ) (rand : ℕ → ℕ → ℝ) : Table :=
  (List.range colsLod.length).foldl
    (fun acc j =>
      let c := (colsLod.get? j).getD ""
      match tableGetCol acc c with
      | none => acc
      | some col =>
          let ncens := col.countP (fun x => x.isNone)
          if ncens = 0 then acc
          else tableSetCol acc c (fillNones col
            ((List.range ncens).map
              (fun i => frac * ((lodInfo.lookup c).getD 0) * rand j i))))
    df

/-- Initialisation dispatch: `multRepl` fills censored cells; `complete_obs`
only validates that at least 3 complete observations exist and leaves the
frame unchanged (the source fills nothing on this branch). -/
noncomputable def lremInit (df : Table) (lodInfo : List (String × ℝ))
    (colsLod : List String) (frac : ℝ) (rand : ℕ → ℕ → ℝ) :
    IniMethod → Except PyErr Table
  | IniMethod.multRepl => Except.ok (lremInitFill df lodInfo colsLod frac rand)
  | IniMethod.completeObs =>
      if completeRows df colsLod < 3 then Except.error PyErr.valueError
      else Except.ok df

/-- `reemplazar_lod_lrem`: validations, initialisation, the EM loop, and the
final write-back `df_result[cols_lod] = X`.  The per-iteration diagnostic
log is summarised by the final `EmState` (convergence flag, iteration count
and last relative change); the printed non-convergence warning is a side
effect outside the model. -/
noncomputable def reemplazar_lod_lrem (pinvF : MatR → MatR)
    (rand : ℕ → ℕ → ℝ) (df : Table) (lodInfo : List (String × ℝ))
    (tolerance : ℝ) (maxIter : ℕ) (frac : ℝ) (iniMethod : IniMethod) :
    Except PyErr (Table × EmState) :=
  let colsLod := (lodInfo.map Prod.fst).filter
    (fun c => (tableGetCol df c).isSome)
  if colsLod.length < 2 then Except.error PyErr.valueError
  else if nRows df ≤ colsLod.length then Except.error PyErr.valueError
  else
    match lremInit df lodInfo colsLod frac rand iniMethod with
    | Except.error e => Except.error e
    | Except.ok dfWork =>
        let n := nRows df
        let X0 := (List.range n).map
          (fun i => colsLod.map (fun c => cellAt dfWork c i))
        let cmask := (List.range n).map
          (fun i => colsLod.map (fun c => (cellAt df c i).isNone))
        let st0 : EmState := ⟨X0, X0, false, 0, none⟩
        match lremLoop (lremBody pinvF lodInfo colsLod cmask tolerance)
            maxIter st0 with
        | Except.error e => Except.error e
        | Except.ok st =>
            let dfRes := (List.range colsLod.length).foldl
              (fun acc j =>
                tableSetCol acc ((colsLod.get? j).getD "") (colOfM st.X j))
              df
            Except.ok (dfRes, st)

/-- `aplicar_lrem_robusto`: revalidates the inputs (including the
fully-censored-column check), then calls `reemplazar_lod_lrem`; any
exception from it is "handled" by a fallback that does
`from imputation import reemplazar_lod_multiplicativo`, a function defined
nowhere in the codebase, so the fallback itself raises `ImportError`. -/
noncomputable def aplicar_lrem_robusto (pinvF : MatR → MatR)
    (rand : ℕ → ℕ → ℝ) (df : Table) (lodInfo : List (String × ℝ))
    (tolerance : ℝ) (maxIter : ℕ) (frac : ℝ) (iniMethod : IniMethod) :
    Except PyErr (Table × EmState) :=
  let colsLod := (lodInfo.map Prod.fst).filter
    (fun c => (tableGetCol df c).isSome)
  if colsLod.length < 2 then Except.error PyErr.valueError
  else if nRows df ≤ colsLod.length then Except.error PyErr.valueError
  else if colsLod.any
      (fun c => ((tableGetCol df c).getD []).all (fun x => x.isNone)) then
    Except.error PyErr.valueError
  else
    match reemplazar_lod_lrem pinvF rand df lodInfo tolerance maxIter frac
        iniMethod with
    | Except.ok r => Except.ok r
    | Except.error _ => Except.error PyErr.importError

/-! ## Dispatcher (`imputation.aplicar_reemplazo_lod`)

The heterogeneous per-method logs are observational (never read back), so
the dispatcher model returns the imputed table only. -/

/-- `aplicar_reemplazo_lod`: route on the method selector string.  The
`"multiplicativo"` branch calls `reemplazar_lod_multiplicativo`, which is
not defined anywhere, so it raises `NameError`; an unrecognized selector
raises `ValueError`; `"idw"` first checks `df_coords is None or
df_coords.empty`. -/
noncomputable def aplicar_reemplazo_lod (df : Table)
    (lodInfo : List (String × ℝ)) (metodo : String) (dfCoords : Option Table)
    (metodoSimple : CenterMethod) (drawFor : String → ℕ → ℝ)
    (Phi phi ppf : ℝ → ℝ) (power : ℝ) (maxDistance : Option ℝ)
    (minNeighbors : ℕ) (metodoC : CenterMethod) (pinvF : MatR → MatR)
    (rand : ℕ → ℕ → ℝ) (tolerance : ℝ) (maxIter : ℕ) (frac : ℝ)
    (iniMethod : IniMethod) : Except PyErr Table :=
  if metodo = "simple" then
    Except.ok (reemplazar_lod_simple df lodInfo metodoSimple drawFor)
  else if metodo = "multiplicativo" then Except.error PyErr.nameError
  else if metodo = "beta" then
    Except.ok (reemplazar_lod_beta_substitution df lodInfo Phi phi ppf)
  else if metodo = "lrem" then
    match aplicar_lrem_robusto pinvF rand df lodInfo tolerance maxIter frac
        iniMethod with
    | Except.ok r => Except.ok r.1
    | Except.error e => Except.error e
  else if metodo = "idw" then
    match dfCoords with
    | none => Except.error PyErr.valueError
    | some tc =>
        if tableEmpty tc then Except.error PyErr.valueError
        else reemplazar_lod_idw df tc lodInfo power maxDistance minNeighbors
          metodoC
  else Except.error PyErr.valueError

/-- Project the table out of an engine result (empty table on error); used
to state concrete facts about successful runs without binders. -/
def exceptTable : Except PyErr (Table × EmState) → Table
  | Except.ok r => r.1
  | Except.error _ => []

/-! ## Helper lemmas -/

theorem listMaxQ_mem : ∀ (l : List ℚ) (m : ℚ), listMaxQ l = some m → m ∈ l := by
  intro l
  induction l with
  | nil => intro m h; simp [listMaxQ] at h
  | cons x xs ih =>
      intro m h
      simp only [listMaxQ] at h
      cases hxs : listMaxQ xs with
      | none =>
          rw [hxs] at h; simp only [Option.elim] at h
          injection h with h
          subst h; exact List.mem_cons_self x xs
      | some m' =>
          rw [hxs] at h; simp only [Option.elim] at h
          injection h with h
          subst h
          rcases max_choice x m' with hc | hc
          · rw [hc]; exact List.mem_cons_self x xs
          · rw [hc]; exact List.mem_cons_of_mem x (ih m' hxs)

theorem le_listMaxQ : ∀ (l : List ℚ) (m : ℚ), listMaxQ l = some m →
    ∀ v ∈ l, v ≤ m := by
  intro l
  induction l with
  | nil => intro m _ v hv; simp at hv
  | cons x xs ih =>
      intro m h v hv
      simp only [listMaxQ] at h
      cases hxs : listMaxQ xs with
      | none =>
          rw [hxs] at h; simp only [Option.elim] at h
          injection h with h
          cases hxs' : xs with
          | nil =>
              subst hxs'
              rcases List.mem_singleton.mp hv with rfl
              exact h ▸ le_refl v
          | cons y ys => subst hxs'; simp [listMaxQ] at hxs
      | some m' =>
          rw [hxs] at h; simp only [Option.elim] at h
          injection h with h
          rcases List.mem_cons.mp hv with rfl | hv'
          · exact h ▸ le_max_left v m'
          · exact le_trans (ih m' hxs v hv') (h ▸ le_max_right x m')

theorem matchedVals_ne_nil (col : List Cell) (h : col.any cellMatches = true) :
    matchedVals col ≠ [] := by
  rcases List.any_eq_true.mp h with ⟨c, hc, hm⟩
  intro hnil
  have := List.map_eq_nil_iff.mp hnil
  have := List.filter_eq_nil_iff.mp this c hc
  exact this hm

theorem listMaxQ_isSome_of_ne_nil (l : List ℚ) (h : l ≠ []) :
    ∃ m, listMaxQ l = some m := by
  cases l with
  | nil => exact absurd rfl h
  | cons x xs => exact ⟨_, rfl⟩

theorem parseDecimal_nonneg (cs : List Char) : 0 ≤ parseDecimal cs := by
  unfold parseDecimal
  dsimp only
  split
  · positivity
  · positivity

theorem parseLOD_nonneg (s : String) : 0 ≤ parseLOD s :=
  parseDecimal_nonneg _

/-! ## Claim C2 -/

/-- Claim C2: for every column in which at least one cell's textual form
matches `< <number>`, the detector replaces every matching cell with the
missing marker and records as the column's limit the maximum of the parsed
numeric suffixes of the matching cells; a column with no matching cell is
returned untouched with no limit entry. -/
theorem C2_detector_column (col : List Cell) :
    (col.any cellMatches = true →
      (detectar_lod_col col).1
          = col.map (fun c => if cellMatches c then Cell.na else c) ∧
      ∃ m, (detectar_lod_col col).2 = some m ∧ m ∈ matchedVals col ∧
        ∀ v ∈ matchedVals col, v ≤ m) ∧
    (col.any cellMatches = false → detectar_lod_col col = (col, none)) := by
  constructor
  · intro h
    obtain ⟨m, hm⟩ :=
      listMaxQ_isSome_of_ne_nil (matchedVals col) (matchedVals_ne_nil col h)
    constructor
    · simp [detectar_lod_col, h]
    · refine ⟨m, ?_, listMaxQ_mem _ _ hm, le_listMaxQ _ _ hm⟩
      simp [detectar_lod_col, h, hm]
  · intro h
    simp [detectar_lod_col, h]

/-- Witness for C2 at a concrete column: `"<5"` and `"< 7.5"` match, the
recorded limit is their maximum `7.5`, and the non-matching cells are
untouched. -/
theorem C2_witness :
    ([Cell.txt "10.5", Cell.txt "<5", Cell.txt "< 7.5", Cell.na].any
        cellMatches = true) ∧
    ((detectar_lod_col
        [Cell.txt "10.5", Cell.txt "<5", Cell.txt "< 7.5", Cell.na]).1
      = [Cell.txt "10.5", Cell.txt "<5", Cell.txt "< 7.5", Cell.na].map
          (fun c => if cellMatches c then Cell.na else c) ∧
     ∃ m, (detectar_lod_col
        [Cell.txt "10.5", Cell.txt "<5", Cell.txt "< 7.5", Cell.na]).2
          = some m ∧
       m ∈ matchedVals
          [Cell.txt "10.5", Cell.txt "<5", Cell.txt "< 7.5", Cell.na] ∧
       ∀ v ∈ matchedVals
          [Cell.txt "10.5", Cell.txt "<5", Cell.txt "< 7.5", Cell.na],
         v ≤ m) :=
  ⟨by decide, (C2_detector_column _).1 (by decide)⟩

/-! ## Claim C10 -/

/-- Counterexample to C10 as stated: the cell `"<0"` matches the detector
pattern `^<\s*\d+(\.\d+)?$`, so the recorded limit of the column `["<0"]` is
`0`, which is not strictly positive. -/
theorem C10_counterexample :
    (detectar_lod_col [Cell.txt "<0"]).2 = some 0 ∧ ¬ (0 < (0 : ℚ)) := by
  exact ⟨by decide, by decide⟩

/-- Claim C10 (amended): every limit the detector records is nonnegative
(the matched numeric literal `\d+(\.\d+)?` is unsigned, but it can be `0`,
so strict positivity fails). -/
theorem C10_limit_nonneg (col : List Cell) (m : ℚ)
    (h : (detectar_lod_col col).2 = some m) : 0 ≤ m := by
  by_cases ha : col.any cellMatches
  · obtain ⟨m', hm'⟩ :=
      listMaxQ_isSome_of_ne_nil (matchedVals col) (matchedVals_ne_nil col ha)
    simp [detectar_lod_col, ha, hm'] at h
    obtain ⟨c, _, hc⟩ := List.mem_map.mp (listMaxQ_mem _ _ hm')
    subst h
    exact hc ▸ parseLOD_nonneg _
  · simp [detectar_lod_col, ha] at h

/-- Witness for C10 (amended) at the concrete column `["<2"]`: the recorded
limit is `2` and it is nonnegative. -/
theorem C10_witness :
    (detectar_lod_col [Cell.txt "<2"]).2 = some 2 ∧ (0 : ℚ) ≤ 2 :=
  ⟨by decide, C10_limit_nonneg [Cell.txt "<2"] 2 (by decide)⟩

theorem sum_map_mul_const (l : List ℝ) (c : ℝ) :
    (l.map (fun x => x * c)).sum = l.sum * c := by
  induction l with
  | nil => simp
  | cons x xs ih => simp [ih]; ring

theorem sum_map_div_const (l : List ℝ) (c : ℝ) :
    (l.map (fun x => x / c)).sum = l.sum / c := by
  induction l with
  | nil => simp
  | cons x xs ih => simp [ih, add_div]

/-! ## Claim C8 -/

/-- Claim C8: the mean-correction pass of the simple engine is exact: for a
nonempty vector of (clipped) draws with positive sample mean, multiplying
every draw by `C / mean` makes the arithmetic mean exactly `C`; and the
values the engine finally writes are exactly the re-clip of these rescaled
draws, so any residual deviation from `C` comes from the re-clip alone. -/
theorem C8_mean_correction (l : List ℝ) (C : ℝ) (metodo : CenterMethod)
    (L : ℝ) (draw : ℕ → ℝ) (n : ℕ) (hne : l ≠ []) (hm : 0 < meanR l) :
    meanR (rescale l C) = C ∧
    simpleColValues metodo L draw n
      = (rescale (((List.range n).map draw).map
            (fun x => npClip x (1/1000) (99/100 * L)))
          (centerC metodo L)).map
          (fun x => npClip x (1/1000) (99/100 * L)) := by
  constructor
  · have hlen : (l.length : ℝ) ≠ 0 := by
      have h0 : l.length ≠ 0 := by
        simpa using (List.length_pos.mpr hne).ne'
      exact_mod_cast h0
    have hm0 : meanR l ≠ 0 := ne_of_gt hm
    have hsum : l.sum ≠ 0 := by
      intro h0
      exact hm0 (by simp [meanR, h0])
    simp only [meanR, rescale] at *
    rw [sum_map_mul_const, List.length_map]
    field_simp
  · rfl

/-- Witness for C8: at the concrete draws `[1, 3]` with target center `5`
the rescaled mean is exactly `5`. -/
theorem C8_witness :
    (0 : ℝ) < meanR [1, 3] ∧ meanR (rescale [1, 3] 5) = 5 :=
  ⟨by norm_num [meanR],
   (C8_mean_correction [1, 3] 5 CenterMethod.div2 1 (fun _ => 0) 0
      (by simp) (by norm_num [meanR])).1⟩

theorem alr_inverse_def (ys : List ℝ) (xlast : ℝ) :
    alr_inverse ys xlast
      = (ys.map Real.exp).map
          (fun e => e * xlast / (1 + (ys.map Real.exp).sum))
        ++ [xlast / (1 + (ys.map Real.exp).sum)] := rfl

/-! ## Claim C1 -/

/-- Counterexample to C1 as stated: on the strictly positive row `[1, 1]`
(leading components `[1]`, reference `1`) the transform/inverse pair of the
EM engine returns `[1/2, 1/2]`, not the original row: `alr_inverse` closes
the composition instead of undoing `alr_transform`. -/
theorem C1_counterexample :
    alr_inverse (alr_transform [1] 1) 1 ≠ [1, 1] := by
  have h1 : max (1 : ℝ) (1 / 10 ^ 10) = 1 := max_eq_left (by norm_num)
  rw [alr_inverse_def]
  simp only [alr_transform, List.map_cons, List.map_nil, h1]
  norm_num [Real.log_one, Real.exp_zero]

/-- Claim C1 (amended): for a row of components `≥ 1e-10` (so the clamp in
`alr_transform` is inert), `alr_inverse` applied to the row's alr
coordinates with the row's last component as reference returns the original
row scaled componentwise by `x_last / (row sum)` — the original composition
up to closure, equal to the original row only when the leading components
sum to zero, which positivity forbids. -/
theorem C1_roundtrip_closure (xs : List ℝ) (xD : ℝ)
    (hxs : ∀ a ∈ xs, 1 / 10 ^ 10 ≤ a) (hxD : (1 : ℝ) / 10 ^ 10 ≤ xD) :
    alr_inverse (alr_transform xs xD) xD
      = (xs ++ [xD]).map (fun a => a * (xD / (xs.sum + xD))) := by
  have heps : (0 : ℝ) < 1 / 10 ^ 10 := by norm_num
  have hxD0 : 0 < xD := lt_of_lt_of_le heps hxD
  have hsum0 : 0 ≤ xs.sum :=
    List.sum_nonneg (fun a ha => le_trans heps.le (hxs a ha))
  have hS : 0 < xs.sum + xD := by linarith
  have hmaxD : max xD (1 / 10 ^ 10) = xD := max_eq_left hxD
  have hexp : (alr_transform xs xD).map Real.exp
      = xs.map (fun a => a / xD) := by
    unfold alr_transform
    rw [List.map_map]
    apply List.map_congr_left
    intro a ha
    have ha0 : 0 < a := lt_of_lt_of_le heps (hxs a ha)
    have hmaxa : max a (1 / 10 ^ 10) = a := max_eq_left (hxs a ha)
    simp only [Function.comp_apply, hmaxa, hmaxD]
    exact Real.exp_log (div_pos ha0 hxD0)
  have hdiv : (xs.map (fun a => a / xD)).sum = xs.sum / xD :=
    sum_map_div_const xs xD
  have hdenom : 1 + xs.sum / xD = (xs.sum + xD) / xD := by
    field_simp
    ring
  rw [alr_inverse_def, hexp, hdiv, hdenom, List.map_append]
  congr 1
  · rw [List.map_map]
    apply List.map_congr_left
    intro a ha
    simp only [Function.comp_apply]
    have hxDne : xD ≠ 0 := ne_of_gt hxD0
    have hSne : xs.sum + xD ≠ 0 := ne_of_gt hS
    field_simp
  · simp only [List.map_cons, List.map_nil, List.cons.injEq, and_true]
    rw [div_div_eq_mul_div]
    field_simp

/-- Witness for C1 (amended) at the concrete row `[1, 1]`: the round trip
returns `[1 * (1/2), 1 * (1/2)]`. -/
theorem C1_witness :
    ((1 : ℝ) / 10 ^ 10 ≤ 1) ∧
    alr_inverse (alr_transform [1] 1) 1
      = ([(1 : ℝ)] ++ [1]).map (fun a => a * (1 / (List.sum [(1 : ℝ)] + 1))) :=
  ⟨by norm_num,
   C1_roundtrip_closure [1] 1
     (by intro a ha; rcases List.mem_singleton.mp ha with rfl; norm_num)
     (by norm_num)⟩

theorem simpleColValues_def (metodo : CenterMethod) (L : ℝ) (draw : ℕ → ℝ)
    (n : ℕ) :
    simpleColValues metodo L draw n
      = (rescale (((List.range n).map draw).map
            (fun x => npClip x (1/1000) (99/100 * L)))
          (centerC metodo L)).map
          (fun x => npClip x (1/1000) (99/100 * L)) := rfl

theorem npClip_bounds (x lo hi : ℝ) (h : lo ≤ hi) :
    lo ≤ npClip x lo hi ∧ npClip x lo hi ≤ hi :=
  ⟨le_min h (le_max_right x lo), min_le_left hi (max x lo)⟩

theorem fillNones_get_some :
    ∀ (cs : List CellR) (vs : List ℝ) (i : ℕ) (w : ℝ),
      cs.get? i = some (some w) →
      (fillNones cs vs).get? i = some (some w) := by
  intro cs
  induction cs with
  | nil => intro vs i w h; simp at h
  | cons c cs ih =>
      intro vs i w h
      cases c with
      | some w' =>
          cases i with
          | zero => simpa [fillNones] using h
          | succ n =>
              simp only [fillNones, List.get?_cons_succ] at h ⊢
              exact ih vs n w h
      | none =>
          cases vs with
          | nil =>
              cases i with
              | zero => simp at h
              | succ n =>
                  simp only [fillNones, List.get?_cons_succ] at h ⊢
                  exact ih [] n w h
          | cons v vs' =>
              cases i with
              | zero => simp at h
              | succ n =>
                  simp only [fillNones, List.get?_cons_succ] at h ⊢
                  exact ih vs' n w h

theorem fillNones_all_isSome :
    ∀ (cs : List CellR) (vs : List ℝ),
      cs.countP (fun c => c.isNone) ≤ vs.length →
      ∀ c ∈ fillNones cs vs, c.isSome = true := by
  intro cs
  induction cs with
  | nil => intro vs _ c hc; simp [fillNones] at hc
  | cons c0 cs ih =>
      intro vs h c hc
      cases c0 with
      | some w =>
          rw [List.countP_cons_of_neg _ _ (by simp)] at h
          simp only [fillNones, List.mem_cons] at hc
          rcases hc with rfl | hc
          · rfl
          · exact ih vs h c hc
      | none =>
          rw [List.countP_cons_of_pos _ _ (by simp)] at h
          cases vs with
          | nil => simp at h
          | cons v vs' =>
              simp only [List.length_cons, Nat.succ_le_succ_iff] at h
              simp only [fillNones, List.mem_cons] at hc
              rcases hc with rfl | hc
              · rfl
              · exact ih vs' h c hc

theorem fillNones_covers (P : ℝ → Prop) :
    ∀ (cs : List CellR) (vs : List ℝ),
      (∀ v ∈ vs, P v) →
      cs.countP (fun c => c.isNone) ≤ vs.length →
      ∀ i, cs.get? i = some none →
        ∃ v, (fillNones cs vs).get? i = some (some v) ∧ P v := by
  intro cs
  induction cs with
  | nil => intro vs _ _ i hi; simp at hi
  | cons c0 cs ih =>
      intro vs hP h i hi
      cases c0 with
      | some w =>
          rw [List.countP_cons_of_neg _ _ (by simp)] at h
          cases i with
          | zero => simp at hi
          | succ n =>
              simp only [fillNones, List.get?_cons_succ] at hi ⊢
              exact ih vs hP h n hi
      | none =>
          rw [List.countP_cons_of_pos _ _ (by simp)] at h
          cases vs with
          | nil => simp at h
          | cons v vs' =>
              simp only [List.length_cons, Nat.succ_le_succ_iff] at h
              cases i with
              | zero =>
                  exact ⟨v, by simp [fillNones], hP v (List.mem_cons_self v vs')⟩
              | succ n =>
                  simp only [fillNones, List.get?_cons_succ] at hi ⊢
                  exact ih vs' (fun u hu => hP u (List.mem_cons_of_mem v hu)) h n hi

/-! ## Claim C4 -/

/-- Claim C4 (amended): for a column with a limit `L` large enough that the
clip interval is nonempty (`0.001 ≤ 0.99·L`), the simple engine leaves no
missing cell, and every value written into an originally missing cell lies
in `[0.001, 0.99·L]`.  (For smaller `L` the written values fall below
`0.001`; see the counterexample.) -/
theorem C4_simple_column (metodo : CenterMethod) (L : ℝ) (draw : ℕ → ℝ)
    (col : List CellR) (hL : (1 : ℝ) / 1000 ≤ 99 / 100 * L) :
    (∀ i c, (reemplazar_lod_simple_col metodo L draw col).get? i = some c →
        c.isSome = true) ∧
    (∀ i, col.get? i = some none →
        ∃ v, (reemplazar_lod_simple_col metodo L draw col).get? i
            = some (some v) ∧ 1 / 1000 ≤ v ∧ v ≤ 99 / 100 * L) := by
  by_cases hn : col.countP (fun c => c.isNone) = 0
  · have hres : reemplazar_lod_simple_col metodo L draw col = col := by
      simp [reemplazar_lod_simple_col, hn]
    constructor
    · intro i c hc
      rw [hres] at hc
      have hmem := List.get?_mem hc
      have hnot := List.countP_eq_zero.mp hn _ hmem
      cases c with
      | none => simp at hnot
      | some w => rfl
    · intro i hi
      exfalso
      have hmem := List.get?_mem hi
      have hnot := List.countP_eq_zero.mp hn _ hmem
      simp at hnot
  · have hres : reemplazar_lod_simple_col metodo L draw col
        = fillNones col
            (simpleColValues metodo L draw
              (col.countP (fun c => c.isNone))) := by
      simp [reemplazar_lod_simple_col, hn]
    have hlen : (simpleColValues metodo L draw
        (col.countP (fun c => c.isNone))).length
          = col.countP (fun c => c.isNone) := by
      rw [simpleColValues_def]
      simp [rescale]
    have hP : ∀ v ∈ simpleColValues metodo L draw
        (col.countP (fun c => c.isNone)),
        1 / 1000 ≤ v ∧ v ≤ 99 / 100 * L := by
      intro v hv
      rw [simpleColValues_def] at hv
      obtain ⟨x, _, rfl⟩ := List.mem_map.mp hv
      exact npClip_bounds x _ _ hL
    constructor
    · intro i c hc
      rw [hres] at hc
      exact fillNones_all_isSome col _ (le_of_eq hlen.symm) c (List.get?_mem hc)
    · intro i hi
      rw [hres]
      exact fillNones_covers _ col _ hP (le_of_eq hlen.symm) i hi

/-- Counterexample to C4 as stated: with limit `L = 0.001` (e.g. from cells
`"<0.001"`), the clip interval `[0.001, 0.99·L] = [0.001, 0.00099]` is
empty, and the engine writes `0.00099 < 0.001` into the missing cell — a
value outside the claimed interval. -/
theorem C4_counterexample :
    (reemplazar_lod_simple_col CenterMethod.div2 (1/1000) (fun _ => 1)
        [none]).get? 0 = some (some (99/100000)) ∧
    ¬ ((1 : ℝ) / 1000 ≤ 99 / 100000) := by
  constructor
  · have hv : simpleColValues CenterMethod.div2 (1/1000) (fun _ => 1) 1
        = [99/100000] := by
      rw [simpleColValues_def]
      have h1 : npClip (1 : ℝ) (1/1000) (99/100 * (1/1000)) = 99/100000 := by
        unfold npClip
        rw [max_eq_left (by norm_num), min_eq_left (by norm_num)]
        norm_num
      simp only [List.range_succ, List.range_zero, List.nil_append,
        List.map_cons, List.map_nil, h1, rescale, meanR, centerC]
      have h2 : ((99 : ℝ)/100000) * ((1/1000/2) / ((99/100000 + 0) / 1))
          = 1/2000 := by norm_num
      simp only [List.sum_cons, List.sum_nil, List.length_cons,
        List.length_nil]
      norm_num
      unfold npClip
      rw [max_eq_right (by norm_num), min_eq_left (by norm_num)]
    have hn : List.countP (fun c => c.isNone) ([none] : List CellR) = 1 := by
      decide
    have hres : reemplazar_lod_simple_col CenterMethod.div2 (1/1000)
        (fun _ => 1) [none]
          = fillNones [none] (simpleColValues CenterMethod.div2 (1/1000)
              (fun _ => 1) 1) := by
      simp [reemplazar_lod_simple_col, hn]
    rw [hres, hv]
    rfl
  · norm_num

/-- Witness for C4 (amended) at a concrete column with `L = 1`. -/
theorem C4_witness :
    ((1 : ℝ) / 1000 ≤ 99 / 100 * 1) ∧
    (∃ v, (reemplazar_lod_simple_col CenterMethod.div2 1 (fun _ => 1)
        [none]).get? 0 = some (some v) ∧
        (1 : ℝ) / 1000 ≤ v ∧ v ≤ 99 / 100 * 1) :=
  ⟨by norm_num,
   (C4_simple_column CenterMethod.div2 1 (fun _ => 1) [none]
      (by norm_num)).2 0 rfl⟩

theorem beta_MEAN_def (Phi phi ppf : ℝ → ℝ) (L : ℝ) (col : List CellR) :
    beta_MEAN Phi phi ppf L col
      = ((col.length : ℝ) / (betaK col : ℝ))
          * Phi (beta_z ppf col - beta_s_y_hat Phi phi ppf L col)
          * Real.exp (-(beta_s_y_hat Phi phi ppf L col * beta_z ppf col)
              + (beta_s_y_hat Phi phi ppf L col) ^ 2 / 2) := rfl

theorem beta_GM_def (Phi phi ppf : ℝ → ℝ) (L : ℝ) (col : List CellR) :
    beta_GM Phi phi ppf L col
      = Real.exp
          (-(((col.length : ℝ) - (betaK col : ℝ)) * (col.length : ℝ)
                / (betaK col : ℝ))
              * Real.log (beta_f_s_y_z Phi phi ppf L col)
            - beta_s_y_hat Phi phi ppf L col * beta_z ppf col
            - ((col.length : ℝ) - (betaK col : ℝ))
                / (2 * (betaK col : ℝ) * (col.length : ℝ))
                * (beta_s_y_hat Phi phi ppf L col) ^ 2) := rfl

/-! ## Claim C3 -/

/-- Claim C3: for a column with at least 2 observed values, at least one
censored cell, positive limit and valid estimates (`s_y_hat > 0` and both
betas strictly inside `(0,1)`; float finiteness holds automatically in the
real-number model once `0 < L`), the beta-substitution engine fills every
censored cell with the single value `beta_MEAN * L`, which is strictly less
than `L`. -/
theorem C3_beta_substitution (Phi phi ppf : ℝ → ℝ) (L : ℝ) (col : List CellR)
    (h2 : 2 ≤ (betaDetect col).length) (hk : betaK col ≠ 0) (hL : 0 < L)
    (hs : 0 < beta_s_y_hat Phi phi ppf L col)
    (hm1 : 0 < beta_MEAN Phi phi ppf L col)
    (hm2 : beta_MEAN Phi phi ppf L col < 1)
    (hg1 : 0 < beta_GM Phi phi ppf L col)
    (hg2 : beta_GM Phi phi ppf L col < 1) :
    reemplazar_lod_beta_col Phi phi ppf L col
        = fillConst (beta_MEAN Phi phi ppf L col * L) col ∧
    (∀ i, col.get? i = some none →
        (reemplazar_lod_beta_col Phi phi ppf L col).get? i
          = some (some (beta_MEAN Phi phi ppf L col * L))) ∧
    beta_MEAN Phi phi ppf L col * L < L := by
  have hres : reemplazar_lod_beta_col Phi phi ppf L col
      = fillConst (beta_MEAN Phi phi ppf L col * L) col := by
    unfold reemplazar_lod_beta_col
    rw [if_neg (not_or.mpr ⟨not_lt.mpr h2, hk⟩), if_neg (not_le.mpr hs),
      if_neg (not_not_intro ⟨hm1, hm2⟩), if_neg (not_not_intro ⟨hg1, hg2⟩)]
  refine ⟨hres, ?_, ?_⟩
  · intro i hi
    rw [hres]
    unfold fillConst
    rw [List.get?_map, hi]
    rfl
  · calc beta_MEAN Phi phi ppf L col * L
        < 1 * L := mul_lt_mul_of_pos_right hm2 hL
      _ = L := one_mul L

/-- Concrete standard-normal-cdf stand-in for the C3 witness. -/
noncomputable def PhiW : ℝ → ℝ := fun x => if x < 0 then 1/100 else 1/2

/-- Concrete standard-normal-pdf stand-in for the C3 witness. -/
noncomputable def phiW : ℝ → ℝ := fun _ => 1/2

/-- Concrete quantile-function stand-in for the C3 witness. -/
noncomputable def ppfW : ℝ → ℝ := fun _ => 0

/-- Concrete column for the C3 witness: two observed values `e` and one
censored cell. -/
noncomputable def colW : List CellR := [some (Real.exp 1), some (Real.exp 1), none]

theorem colW_s_eq : beta_s_y_hat PhiW phiW ppfW 1 colW = 1 := by
  have hdet : betaDetect colW = [Real.exp 1, Real.exp 1] := rfl
  have hybar : beta_y_bar colW = 1 := by
    rw [beta_y_bar, hdet]
    simp [meanR, Real.log_exp]
  have hz : beta_z ppfW colW = 0 := rfl
  have hfz : beta_f_z PhiW phiW ppfW colW = 1 := by
    rw [beta_f_z, hz]
    norm_num [PhiW, phiW]
  rw [beta_s_y_hat, hybar, hfz, hz, Real.log_one]
  norm_num

theorem colW_MEAN_eq :
    beta_MEAN PhiW phiW ppfW 1 colW = 3 / 100 * Real.exp (1/2) := by
  have hz : beta_z ppfW colW = 0 := rfl
  have hk : betaK colW = 1 := rfl
  have hn : colW.length = 3 := rfl
  rw [beta_MEAN_def, colW_s_eq, hz, hk, hn]
  norm_num [PhiW]

theorem colW_fsyz_eq : beta_f_s_y_z PhiW phiW ppfW 1 colW = 99 / 50 := by
  have hz : beta_z ppfW colW = 0 := rfl
  have hn : colW.length = 3 := rfl
  rw [beta_f_s_y_z, colW_s_eq, hz, hn]
  norm_num [PhiW]

theorem colW_GM_eq :
    beta_GM PhiW phiW ppfW 1 colW
      = Real.exp (-6 * Real.log (99/50) - 1/3) := by
  have hz : beta_z ppfW colW = 0 := rfl
  have hk : betaK colW = 1 := rfl
  have hn : colW.length = 3 := rfl
  rw [beta_GM_def, colW_s_eq, hz, hk, hn, colW_fsyz_eq]
  norm_num

theorem exp_half_lt_three : Real.exp (1/2 : ℝ) < 3 := by
  have h1 : Real.exp (1/2 : ℝ) ≤ Real.exp 1 := Real.exp_le_exp.mpr (by norm_num)
  have h2 : Real.exp 1 < 2.7182818286 := Real.exp_one_lt_d9
  linarith [h1, h2]

/-- Witness for C3: at the concrete column `colW` with `L = 1` and the
stand-in normal functions, all validity hypotheses hold and both censored
cells receive exactly `beta_MEAN * L < L`. -/
theorem C3_witness :
    (0 < beta_s_y_hat PhiW phiW ppfW 1 colW) ∧
    (0 < beta_MEAN PhiW phiW ppfW 1 colW ∧
      beta_MEAN PhiW phiW ppfW 1 colW < 1) ∧
    ((reemplazar_lod_beta_col PhiW phiW ppfW 1 colW).get? 2
        = some (some (beta_MEAN PhiW phiW ppfW 1 colW * 1))) ∧
    beta_MEAN PhiW phiW ppfW 1 colW * 1 < 1 := by
  have hs : 0 < beta_s_y_hat PhiW phiW ppfW 1 colW := by
    rw [colW_s_eq]; norm_num
  have hm1 : 0 < beta_MEAN PhiW phiW ppfW 1 colW := by
    rw [colW_MEAN_eq]; positivity
  have hm2 : beta_MEAN PhiW phiW ppfW 1 colW < 1 := by
    rw [colW_MEAN_eq]
    nlinarith [exp_half_lt_three, Real.exp_pos (1/2 : ℝ)]
  have hg1 : 0 < beta_GM PhiW phiW ppfW 1 colW := by
    rw [colW_GM_eq]; exact Real.exp_pos _
  have hg2 : beta_GM PhiW phiW ppfW 1 colW < 1 := by
    rw [colW_GM_eq]
    have hlog : 0 < Real.log (99/50) := Real.log_pos (by norm_num)
    have : (-6 : ℝ) * Real.log (99/50) - 1/3 < 0 := by linarith
    calc Real.exp (-6 * Real.log (99/50) - 1/3)
        < Real.exp 0 := Real.exp_lt_exp.mpr this
      _ = 1 := Real.exp_zero
  have h2 : 2 ≤ (betaDetect colW).length := by
    have : betaDetect colW = [Real.exp 1, Real.exp 1] := rfl
    rw [this]
    norm_num
  have hk : betaK colW ≠ 0 := by
    have : betaK colW = 1 := rfl
    rw [this]
    norm_num
  obtain ⟨_, hcell, hlt⟩ :=
    C3_beta_substitution PhiW phiW ppfW 1 colW h2 hk (by norm_num) hs hm1 hm2
      hg1 hg2
  exact ⟨hs, ⟨hm1, hm2⟩, hcell 2 rfl, hlt⟩

theorem pyClamp_bounds (x lo hi : ℝ) (h : lo ≤ hi) :
    lo ≤ pyClamp x lo hi ∧ pyClamp x lo hi ≤ hi :=
  ⟨le_max_left lo (min x hi), max_le h (min_le_right x hi)⟩

theorem centerC_le (metodoC : CenterMethod) (L : ℝ) (hL0 : 0 ≤ L) :
    centerC metodoC L ≤ 99 / 100 * L := by
  cases metodoC with
  | div2 => unfold centerC; linarith
  | sqrt2 =>
      unfold centerC
      have hs : Real.sqrt 2 ^ 2 = 2 := Real.sq_sqrt (by norm_num)
      have hpos : (0 : ℝ) < Real.sqrt 2 := Real.sqrt_pos.mpr (by norm_num)
      have hs2 : (100 / 99 : ℝ) ≤ Real.sqrt 2 := by
        nlinarith [hs, hpos.le, sq_nonneg (Real.sqrt 2 - 100 / 99)]
      rw [div_le_iff₀ hpos]
      have hmul : (99 / 100) * L * (100 / 99) ≤ (99 / 100) * L * Real.sqrt 2 :=
        mul_le_mul_of_nonneg_left hs2 (by linarith)
      have hL' : (99 / 100 : ℝ) * L * (100 / 99) = L := by ring
      linarith

theorem idwWrittenVal_cases (dist : ℕ → ℕ → ℝ) (power : ℝ) (md : Option ℝ)
    (mn : ℕ) (C A B minObs rango L : ℝ) (col : List CellR) (idx : ℕ) :
    idwWrittenVal dist power md mn C A B minObs rango L col idx = C ∨
    ∃ V, idwWrittenVal dist power md mn C A B minObs rango L col idx
        = pyClamp V (1/1000) (99/100 * L) := by
  unfold idwWrittenVal
  by_cases h1 : (indicesSome col).length < mn
  · rw [if_pos h1]; left; rfl
  · rw [if_neg h1]
    cases md with
    | none => right; exact ⟨_, rfl⟩
    | some d =>
        dsimp only
        by_cases h2 : ((indicesSome col).filter
            (fun j => dist idx j ≤ d)).length < mn
        · rw [if_pos h2]; left; rfl
        · rw [if_neg h2]; right; exact ⟨_, rfl⟩

theorem indicesNone_nodup (col : List CellR) : (indicesNone col).Nodup :=
  List.Nodup.filter _ (List.nodup_range _)

theorem indicesNone_lt (col : List CellR) :
    ∀ j ∈ indicesNone col, j < col.length := by
  intro j hj
  have := List.mem_filter.mp hj
  exact List.mem_range.mp this.1

theorem mem_indicesNone (col : List CellR) (i : ℕ)
    (h : col.get? i = some none) : i ∈ indicesNone col := by
  have hlt : i < col.length := by
    by_contra hge
    rw [List.get?_eq_none.mpr (le_of_not_lt hge)] at h
    exact Option.noConfusion h
  refine List.mem_filter.mpr ⟨List.mem_range.mpr hlt, ?_⟩
  rw [h]
  rfl

theorem not_mem_indicesNone (col : List CellR) (i : ℕ) (w : ℝ)
    (h : col.get? i = some (some w)) : i ∉ indicesNone col := by
  intro hmem
  have := (List.mem_filter.mp hmem).2
  rw [h] at this
  simp at this

theorem idw_fold_preserve (dist : ℕ → ℕ → ℝ) (power : ℝ) (md : Option ℝ)
    (mn : ℕ) (C A B minObs rango L : ℝ) :
    ∀ (idxs : List ℕ) (col : List CellR) (i : ℕ), i ∉ idxs →
      (idxs.foldl (idwStep dist power md mn C A B minObs rango L) col).get? i
        = col.get? i := by
  intro idxs
  induction idxs with
  | nil => intro col i _; rfl
  | cons j rest ih =>
      intro col i hi
      have hij : j ≠ i := fun h => hi (h ▸ List.mem_cons_self j rest)
      rw [List.foldl_cons, ih _ i (fun h => hi (List.mem_cons_of_mem j h))]
      exact List.get?_set_ne _ _ hij

theorem idw_fold_covers (dist : ℕ → ℕ → ℝ) (power : ℝ) (md : Option ℝ)
    (mn : ℕ) (C A B minObs rango L : ℝ) :
    ∀ (idxs : List ℕ) (col : List CellR), idxs.Nodup →
      (∀ j ∈ idxs, j < col.length) →
      ∀ i ∈ idxs,
        ∃ v, (idxs.foldl
            (idwStep dist power md mn C A B minObs rango L) col).get? i
          = some (some v) ∧
          (v = C ∨ ∃ V, v = pyClamp V (1/1000) (99/100 * L)) := by
  intro idxs
  induction idxs with
  | nil => intro col _ _ i hi; simp at hi
  | cons j rest ih =>
      intro col hnd hlt i hi
      have hndr : rest.Nodup := (List.nodup_cons.mp hnd).2
      have hjr : j ∉ rest := (List.nodup_cons.mp hnd).1
      rw [List.foldl_cons]
      rcases List.mem_cons.mp hi with rfl | hir
      · refine ⟨idwWrittenVal dist power md mn C A B minObs rango L col i, ?_, ?_⟩
        · rw [idw_fold_preserve dist power md mn C A B minObs rango L rest _ i hjr]
          exact List.get?_set_eq_of_lt _ (hlt i (List.mem_cons_self i rest))
        · exact idwWrittenVal_cases dist power md mn C A B minObs rango L col i
      · refine ih (idwStep dist power md mn C A B minObs rango L col j) hndr
          ?_ i hir
        intro a ha
        rw [idwStep, List.length_set]
        exact hlt a (List.mem_cons_of_mem j ha)

theorem reemplazar_lod_idw_col_def (dist : ℕ → ℕ → ℝ) (power : ℝ)
    (md : Option ℝ) (mn : ℕ) (metodoC : CenterMethod) (L : ℝ)
    (col : List CellR) :
    reemplazar_lod_idw_col dist power md mn metodoC L col
      = if (betaDetect col).length = 0 then col
        else (indicesNone col).foldl
          (idwStep dist power md mn (centerC metodoC L)
            (2 * L - 4 * centerC metodoC L) (4 * centerC metodoC L - L)
            (listMinR (betaDetect col))
            (if listMaxR (betaDetect col) - listMinR (betaDetect col) = 0
             then (if 0 < listMaxR (betaDetect col)
                   then listMaxR (betaDetect col) else 1)
             else listMaxR (betaDetect col) - listMinR (betaDetect col))
            L) col := rfl

/-! ## Claim C5 -/

/-- Claim C5 (amended): in the IDW engine, a fill step with fewer than
`min_neighbors` currently observed cells — or fewer remaining after the
optional `max_distance` filter — writes exactly the center value `C`; and
for a censored column with at least one observed value whose limit satisfies
`0.001 ≤ C` and `0.001 ≤ 0.99·L`, every originally missing cell ends up
with a value in `[0.001, 0.99·L]`.  (Without those limit bounds the fallback
value `C` is written unclipped and can fall below `0.001`; see the
counterexample.) -/
theorem C5_idw_column (dist : ℕ → ℕ → ℝ) (power : ℝ) (mn : ℕ)
    (metodoC : CenterMethod) (L : ℝ) (C A B minObs rango : ℝ)
    (md : Option ℝ) :
    (∀ (col : List CellR) (idx : ℕ), (indicesSome col).length < mn →
        idwWrittenVal dist power md mn C A B minObs rango L col idx = C) ∧
    (∀ (col : List CellR) (idx : ℕ) (d : ℝ),
        ¬ (indicesSome col).length < mn →
        ((indicesSome col).filter (fun j => dist idx j ≤ d)).length < mn →
        idwWrittenVal dist power (some d) mn C A B minObs rango L col idx
          = C) ∧
    (∀ col : List CellR, betaDetect col ≠ [] →
        (1:ℝ)/1000 ≤ centerC metodoC L → (1:ℝ)/1000 ≤ 99/100 * L →
        ∀ i, col.get? i = some none →
          ∃ v, (reemplazar_lod_idw_col dist power md mn metodoC L col).get? i
              = some (some v) ∧ (1:ℝ)/1000 ≤ v ∧ v ≤ 99/100 * L) := by
  refine ⟨?_, ?_, ?_⟩
  · intro col idx h
    unfold idwWrittenVal
    rw [if_pos h]
  · intro col idx d h1 h2
    unfold idwWrittenVal
    rw [if_neg h1]
    dsimp only
    rw [if_pos h2]
  · intro col hobs hC hL i hi
    have hL0 : (0:ℝ) ≤ L := by linarith
    have hCle : centerC metodoC L ≤ 99/100 * L := centerC_le _ _ hL0
    have hne : ¬ (betaDetect col).length = 0 :=
      fun h => hobs (List.length_eq_zero.mp h)
    rw [reemplazar_lod_idw_col_def, if_neg hne]
    obtain ⟨v, hv, hgood⟩ := idw_fold_covers dist power md mn
      (centerC metodoC L) (2 * L - 4 * centerC metodoC L)
      (4 * centerC metodoC L - L) (listMinR (betaDetect col))
      (if listMaxR (betaDetect col) - listMinR (betaDetect col) = 0
       then (if 0 < listMaxR (betaDetect col)
             then listMaxR (betaDetect col) else 1)
       else listMaxR (betaDetect col) - listMinR (betaDetect col)) L
      (indicesNone col) col (indicesNone_nodup col) (indicesNone_lt col)
      i (mem_indicesNone col i hi)
    refine ⟨v, hv, ?_⟩
    rcases hgood with rfl | ⟨V, rfl⟩
    · exact ⟨hC, hCle⟩
    · exact pyClamp_bounds V _ _ hL

/-- Counterexample to C5 as stated: with limit `L = 0.001` and the `div2`
center, a missing cell with too few neighbors is filled with the unclipped
fallback `C = L/2 = 0.0005`, which lies outside the claimed interval
`[0.001, 0.99·L]`. -/
theorem C5_counterexample :
    (reemplazar_lod_idw_col (fun _ _ => 0) 2 none 3 CenterMethod.div2
        (1/1000) [some 1, none]).get? 1 = some (some ((1:ℝ)/2000)) ∧
    ¬ ((1:ℝ)/1000 ≤ 1/2000) := by
  constructor
  · have h : (reemplazar_lod_idw_col (fun _ _ => 0) 2 none 3
        CenterMethod.div2 (1/1000) [some 1, none]).get? 1
          = some (some (centerC CenterMethod.div2 (1/1000))) := rfl
    rw [h]
    norm_num [centerC]
  · norm_num

/-- Witness for C5 (amended) at a concrete column with `L = 1`: the filled
cell carries a value inside `[0.001, 0.99]`. -/
theorem C5_witness :
    (betaDetect [some (1:ℝ), some 2, some 3, none] ≠ []) ∧
    ((1:ℝ)/1000 ≤ centerC CenterMethod.div2 1) ∧
    (∃ v, (reemplazar_lod_idw_col (fun _ _ => 1) 2 none 3 CenterMethod.div2 1
        [some (1:ℝ), some 2, some 3, none]).get? 3 = some (some v) ∧
      (1:ℝ)/1000 ≤ v ∧ v ≤ 99/100 * 1) := by
  have h1 : betaDetect [some (1:ℝ), some 2, some 3, none] ≠ [] := by
    intro h
    exact List.cons_ne_nil _ _ h
  have h2 : (1:ℝ)/1000 ≤ centerC CenterMethod.div2 1 := by
    norm_num [centerC]
  exact ⟨h1, h2,
    (C5_idw_column (fun _ _ => 1) 2 3 CenterMethod.div2 1 0 0 0 0 0 none).2.2
      [some (1:ℝ), some 2, some 3, none] h1 h2 (by norm_num) 3 rfl⟩

theorem fillConst_get_some (v : ℝ) (col : List CellR) (i : ℕ) (w : ℝ)
    (h : col.get? i = some (some w)) :
    (fillConst v col).get? i = some (some w) := by
  unfold fillConst
  rw [List.get?_map, h]
  rfl

/-! ## Claim C7 -/

/-- Claim C7 (amended): the simple, beta-substitution and IDW engines are
frame-preserving — every cell that is non-missing on input keeps exactly its
input value in the output column.  (The log-ratio EM engine is not: its
`alr_inverse` closure rescales every row, including fully observed ones; see
the counterexample.) -/
theorem C7_frame :
    (∀ (metodo : CenterMethod) (L : ℝ) (draw : ℕ → ℝ) (col : List CellR)
        (i : ℕ) (w : ℝ), col.get? i = some (some w) →
        (reemplazar_lod_simple_col metodo L draw col).get? i
          = some (some w)) ∧
    (∀ (Phi phi ppf : ℝ → ℝ) (L : ℝ) (col : List CellR) (i : ℕ) (w : ℝ),
        col.get? i = some (some w) →
        (reemplazar_lod_beta_col Phi phi ppf L col).get? i = some (some w)) ∧
    (∀ (dist : ℕ → ℕ → ℝ) (power : ℝ) (md : Option ℝ) (mn : ℕ)
        (metodoC : CenterMethod) (L : ℝ) (col : List CellR) (i : ℕ) (w : ℝ),
        col.get? i = some (some w) →
        (reemplazar_lod_idw_col dist power md mn metodoC L col).get? i
          = some (some w)) := by
  refine ⟨?_, ?_, ?_⟩
  · intro metodo L draw col i w h
    unfold reemplazar_lod_simple_col
    by_cases hn : col.countP (fun c => c.isNone) = 0
    · rw [if_pos hn]; exact h
    · rw [if_neg hn]; exact fillNones_get_some col _ i w h
  · intro Phi phi ppf L col i w h
    unfold reemplazar_lod_beta_col
    split
    · exact h
    split
    · exact fillConst_get_some _ col i w h
    split
    · exact fillConst_get_some _ col i w h
    split
    · exact fillConst_get_some _ col i w h
    · exact fillConst_get_some _ col i w h
  · intro dist power md mn metodoC L col i w h
    rw [reemplazar_lod_idw_col_def]
    by_cases hn : (betaDetect col).length = 0
    · rw [if_pos hn]; exact h
    · rw [if_neg hn]
      rw [idw_fold_preserve _ _ _ _ _ _ _ _ _ _ _ _ i
        (not_mem_indicesNone col i w h)]
      exact h

/-- Witness for C7 (amended): each of the three engines keeps the concrete
observed cell `5` unchanged. -/
theorem C7_witness :
    ((reemplazar_lod_simple_col CenterMethod.div2 1 (fun _ => 1)
        [some (5:ℝ), none]).get? 0 = some (some (5:ℝ))) ∧
    ((reemplazar_lod_beta_col (fun _ => (1:ℝ)/2) (fun _ => (1:ℝ)/2)
        (fun _ => 0) 1 [some (5:ℝ), none]).get? 0 = some (some (5:ℝ))) ∧
    ((reemplazar_lod_idw_col (fun _ _ => 0) 2 none 3 CenterMethod.div2 1
        [some (5:ℝ), none]).get? 0 = some (some (5:ℝ))) :=
  ⟨C7_frame.1 CenterMethod.div2 1 (fun _ => 1) [some (5:ℝ), none] 0 5 rfl,
   C7_frame.2.1 (fun _ => (1:ℝ)/2) (fun _ => (1:ℝ)/2) (fun _ => 0) 1
     [some (5:ℝ), none] 0 5 rfl,
   C7_frame.2.2 (fun _ _ => 0) 2 none 3 CenterMethod.div2 1
     [some (5:ℝ), none] 0 5 rfl⟩

/-- Counterexample to C7 as stated for the log-ratio EM engine: on a table
with two limit-mapped columns and no censored cell at all, one EM iteration
replaces the observed cell `(Cu, row 0) = 1` by `1/2`: the alr inverse
closes each row (divides by the row total over the reference component), so
observed cells do not keep their input values. -/
theorem C7_counterexample :
    cellAt (exceptTable (reemplazar_lod_lrem (fun M => M) (fun _ _ => 1)
        [("Cu", [some 1, some 1, some 1]), ("Zn", [some 1, some 1, some 1])]
        [("Cu", 1), ("Zn", 1)] (1/10000) 1 (13/20) IniMethod.multRepl))
      "Cu" 0 = some ((1:ℝ)/2) ∧ ((1:ℝ)/2) ≠ 1 := by
  constructor
  · have hmax : max (1:ℝ) (1/10^10) = 1 := max_eq_left (by norm_num)
    simp [reemplazar_lod_lrem, lremInit, lremInitFill, lremLoop, lremBody,
      lremMStepRow, exceptMapList, alrTransformM, alrRowM, alrInverseM,
      alrInvRowM, oMap2, oFun, oSum, oAdd, oDiv, oMul, muOf, colOfM, oMean,
      cellAt, tableGetCol, tableSetCol, exceptTable, nRows, List.range_succ,
      hmax, Real.log_one, Real.exp_zero]
    norm_num
  · norm_num

/-! ## Claim C6 -/

/-- Claim C6 is refuted by a code bug: on any input whose M-step reaches the
conditional-expectation branch — i.e. some row is censored in at least one
but not all of the leading alr coordinates, which requires at least 3
censored columns — the source evaluates `cols_lod[cens_idx][0]`, indexing
the Python *list* `cols_lod` with a multi-element boolean ndarray.  That
raises `TypeError`, which the surrounding `except np.linalg.LinAlgError`
does not catch, so the call aborts instead of returning the last iterate.
Here: 3 censored columns, 4 samples (satisfying every stated precondition,
including no fully censored column), row 0 censored in column `A` only. -/
theorem C6_lrem_typeerror :
    reemplazar_lod_lrem (fun M => M) (fun _ _ => 1)
        [("A", [none, some 1, some 1, some 1]),
         ("B", [some 1, some 1, some 1, some 1]),
         ("C", [some 1, some 1, some 1, some 1])]
        [("A", 1), ("B", 1), ("C", 1)] (1/10000) 50 (13/20)
        IniMethod.multRepl
      = Except.error PyErr.typeError := by
  simp [reemplazar_lod_lrem, lremInit, lremInitFill, lremLoop, lremBody,
    lremMStepRow, exceptMapList, alrTransformM, alrRowM, alrInverseM,
    alrInvRowM, oMap2, oFun, oSum, oAdd, oDiv, oMul, oSub, muOf, colOfM,
    oMean, covOf, matScale, subMat, selectByMask, matHasNone, pinvCall,
    pyBoolIdxHead, matMul, mvMul, vAdd, vSub, transposeM, updateByMask,
    cellAt, tableGetCol, tableSetCol, nRows, fillNones, List.range_succ]

/-! ## Claim C9 -/

/-- Counterexample to C9 as stated: with exactly one matching coordinate
column the extractor does *not* return an empty coordinate table — the
source only falls back to `pd.DataFrame()` when no column matches, so a
single matching column yields a one-column coordinate table. -/
theorem C9_counterexample :
    (extraer_coordenadas [("UTM_E", [some (1:ℝ)]), ("Cu", [some 2])]).2
        = [("UTM_E", [some (1:ℝ)])] ∧
    (extraer_coordenadas [("UTM_E", [some (1:ℝ)]), ("Cu", [some 2])]).2
        ≠ [] := by
  have h1 : isUtmCol "UTM_E" = true := by decide
  have h2 : isUtmCol "Cu" = false := by decide
  have hc : (extraer_coordenadas
      [("UTM_E", [some (1:ℝ)]), ("Cu", [some 2])]).2
        = [("UTM_E", [some (1:ℝ)])] := by
    simp [extraer_coordenadas, List.filter_cons, h1, h2]
  refine ⟨hc, ?_⟩
  intro h
  rw [hc] at h
  exact List.cons_ne_nil _ _ h

/-- Claim C9 (amended): with zero matching coordinate columns the extractor
returns the empty coordinate table; with exactly one it returns that single
column; in either case requesting the IDW method fails with an
input-validation `ValueError` (raised by the dispatcher when the coordinate
table is empty, and by the IDW engine when it has fewer than two columns). -/
theorem C9_coordinate_validation (df : Table) (lodInfo : List (String × ℝ))
    (metodoSimple : CenterMethod) (drawFor : String → ℕ → ℝ)
    (Phi phi ppf : ℝ → ℝ) (power : ℝ) (maxDistance : Option ℝ)
    (minNeighbors : ℕ) (metodoC : CenterMethod) (pinvF : MatR → MatR)
    (rand : ℕ → ℕ → ℝ) (tolerance : ℝ) (maxIter : ℕ) (frac : ℝ)
    (iniMethod : IniMethod)
    (h : (df.filter (fun p => isUtmCol p.1)).length ≤ 1) :
    ((df.filter (fun p => isUtmCol p.1)) = [] →
        (extraer_coordenadas df).2 = []) ∧
    (∀ c, df.filter (fun p => isUtmCol p.1) = [c] →
        (extraer_coordenadas df).2 = [c]) ∧
    aplicar_reemplazo_lod (extraer_coordenadas df).1 lodInfo "idw"
        (some (extraer_coordenadas df).2) metodoSimple drawFor Phi phi ppf
        power maxDistance minNeighbors metodoC pinvF rand tolerance maxIter
        frac iniMethod
      = Except.error PyErr.valueError := by
  refine ⟨?_, ?_, ?_⟩
  · intro hfil; simp [extraer_coordenadas, hfil]
  · intro c hfil; simp [extraer_coordenadas, hfil]
  · cases hu : df.filter (fun p => isUtmCol p.1) with
    | nil =>
        have hc : (extraer_coordenadas df).2 = [] := by
          simp [extraer_coordenadas, hu]
        rw [hc]
        simp [aplicar_reemplazo_lod, tableEmpty]
    | cons c rest =>
        cases rest with
        | nil =>
            have hc : (extraer_coordenadas df).2 = [c] := by
              simp [extraer_coordenadas, hu]
            rw [hc]
            by_cases he : c.2.isEmpty
            · simp [aplicar_reemplazo_lod, tableEmpty, he]
            · simp [aplicar_reemplazo_lod, tableEmpty, he, reemplazar_lod_idw]
        | cons c2 rest2 => rw [hu] at h; simp at h

/-- Witness for C9 (amended) at a concrete table with exactly one matching
coordinate column: requesting IDW yields the validation error. -/
theorem C9_witness :
    (([("UTM_E", [some (1:ℝ)]), ("Cu", [some 2])].filter
        (fun p => isUtmCol p.1)).length ≤ 1) ∧
    aplicar_reemplazo_lod
        (extraer_coordenadas [("UTM_E", [some (1:ℝ)]), ("Cu", [some 2])]).1
        [("Cu", 1)] "idw"
        (some (extraer_coordenadas
          [("UTM_E", [some (1:ℝ)]), ("Cu", [some 2])]).2)
        CenterMethod.div2 (fun _ _ => 0) (fun x => x) (fun x => x)
        (fun x => x) 2 none 3 CenterMethod.div2 (fun M => M) (fun _ _ => 1)
        (1/10000) 50 (13/20) IniMethod.multRepl
      = Except.error PyErr.valueError := by
  have h1 : isUtmCol "UTM_E" = true := by decide
  have h2 : isUtmCol "Cu" = false := by decide
  have hlen : (([("UTM_E", [some (1:ℝ)]), ("Cu", [some 2])].filter
      (fun p => isUtmCol p.1)).length ≤ 1) := by
    simp [List.filter_cons, h1, h2]
  exact ⟨hlen,
    (C9_coordinate_validation [("UTM_E", [some (1:ℝ)]), ("Cu", [some 2])]
      [("Cu", 1)] CenterMethod.div2 (fun _ _ => 0) (fun x => x) (fun x => x)
      (fun x => x) 2 none 3 CenterMethod.div2 (fun M => M) (fun _ _ => 1)
      (1/10000) 50 (13/20) IniMethod.multRepl hlen).2.2⟩
